import Mathlib

/-!
Verification of the `@flowline/forms` reactive form-state engine.

This file gives a shallow embedding of the engine's data model and core
actions (`createForm`, `setRawValue`, `touch`, `submit`), its error
formatter (`formatErrors`) and per-field selector (`selectFieldState`),
translated from `src/packages/@flowline/forms/src/actions.ts`,
`errors.ts`, `core/types.ts` and the `createForm` constructor, and
proves the spec's claims about them.

Conventions of the embedding:
* Raw input records (`I` in the source) are association lists from
  string keys to string raw values; validated records likewise.
* `Option` models `Option.Option` from effect, `Except` models
  `Either` and an `Effect`'s error channel; the error channel `never`
  is modelled by the uninhabited type `Empty`.
* A schema is modelled by its decode function, taking the `errors`
  parse option (`first`, the library default, or `all`) explicitly,
  since the engine's call sites differ in which option they pass.
* An `Atom.update`/`Atom.modify` body runs atomically, so each one is
  a pure function on `FormState`; interleaving of other actions with
  `submit`'s multi-step pipeline is modelled explicitly where a claim
  is about such interleavings.
-/

deriving instance DecidableEq for Except

namespace Flowline

/-- `Either.getRight` from effect: the success value as an `Option`. -/
def getRight {E A : Type} : Except E A → Option A
  | Except.ok a => some a
  | Except.error _ => none

/-- `Either.getLeft` from effect: the error value as an `Option`. -/
def getLeft {E A : Type} : Except E A → Option E
  | Except.ok _ => none
  | Except.error e => some e

/-- Whether a result is a success. -/
def isOkB {E A : Type} : Except E A → Bool
  | Except.ok _ => true
  | Except.error _ => false

/-- A raw-input record: field keys to raw (string) values. -/
abbrev RawRecord := List (String × String)

/-- A validated record: field keys to validated values. -/
abbrev ValRecord := List (String × String)

/-- Property access `r[k]` on a record, first binding wins. -/
def rawGet : RawRecord → String → Option String
  | [], _ => none
  | (k', v) :: r, k => if k' = k then some v else rawGet r k

/-- Whether a record has a binding for `k`. -/
def hasKey : RawRecord → String → Bool
  | [], _ => false
  | (k', _) :: r, k => if k' = k then true else hasKey r k

/-- Replace every binding of `k` (in place) with value `v`. -/
def overwriteKey : RawRecord → String → String → RawRecord
  | [], _, _ => []
  | (k', v') :: r, k, v =>
    if k' = k then (k, v) :: overwriteKey r k v
    else (k', v') :: overwriteKey r k v

/-- The object spread `{...r, [k]: v}`: an existing key keeps its
position with the new value, a new key is appended. -/
def setKey (r : RawRecord) (k v : String) : RawRecord :=
  if hasKey r k then overwriteKey r k v else r ++ [(k, v)]

/-- `Set.has` on the touched set (modelled as an insertion-ordered list). -/
def touchedHas : List String → String → Bool
  | [], _ => false
  | x :: l, k => if x = k then true else touchedHas l k

/-- `new Set(current).add(key)`: adds `key` if absent, no-op otherwise. -/
def touchedInsert (l : List String) (k : String) : List String :=
  if touchedHas l k then l else l ++ [k]

/-- One issue as produced by `ParseResult.ArrayFormatter`: a field path
and a human-readable message. -/
structure Issue where
  path : List String
  message : String
deriving Repr, DecidableEq

/-- A `ParseResult.ParseError`, represented by the list of issues its
`ArrayFormatter` flattening yields, in formatter order. -/
abbrev ParseError := List Issue

/-- The `errors` parse option of `Schema.decodeEither`: the library
default reports only the first issue, `all` reports every issue. -/
inductive DecodeMode where
  | first
  | all
deriving Repr, DecidableEq

/-- A caller-supplied schema, modelled by its decode function with the
`errors` parse option made explicit. -/
def FSchema (A : Type) : Type := DecodeMode → RawRecord → Except ParseError A

/-- A schema whose decode succeeds in `first` mode exactly when it
succeeds in `all` mode (true of every effect `Schema.Struct`; the
option only selects how many issues are reported, not whether decoding
fails). -/
def ModeConsistent {A : Type} (sch : FSchema A) : Prop :=
  ∀ raw, isOkB (sch DecodeMode.first raw) = isOkB (sch DecodeMode.all raw)

/-- `FormState<A, I>` from the forms core: the single source of truth
for one form at an instant. -/
structure FormState (A : Type) where
  rawValues : RawRecord
  validatedValues : Option A
  errors : Option ParseError
  touched : List String
  isSubmitting : Bool
  hasSubmitted : Bool
deriving Repr, DecidableEq

/-- `createForm` from the form constructor module: decodes the initial
values eagerly (with `Schema.decodeEither(options.schema)`, i.e. no
parse options, so the default `errors: first` mode) and builds the
initial snapshot. The on-file variant of the constructor predates the
`hasSubmitted` field; its initialization to `false` is modelled from
the spec ("`hasSubmitted` becomes true the first time any submit
attempt completes"). -/
def createForm {A : Type} (sch : FSchema A) (initialValues : RawRecord) :
    FormState A :=
  let validationResult := sch DecodeMode.first initialValues
  { rawValues := initialValues
    validatedValues := getRight validationResult
    errors := getLeft validationResult
    touched := []
    isSubmitting := false
    hasSubmitted := false }

/-- The `Atom.update` body of `setRawValue`: merge `{key: value}` into
`rawValues`, re-decode the merged record with `errors: "all"`, and
replace `validatedValues`/`errors` from that one decode. -/
def setRawValue {A : Type} (sch : FSchema A) (key value : String)
    (currentState : FormState A) : FormState A :=
  let newRawValues := setKey currentState.rawValues key value
  let validatedValues := sch DecodeMode.all newRawValues
  { currentState with
      rawValues := newRawValues
      validatedValues := getRight validatedValues
      errors := getLeft validatedValues }

/-- The `Atom.update` body of `touch`: add `key` to the touched set. -/
def touch {A : Type} (key : String) (currentState : FormState A) :
    FormState A :=
  { currentState with touched := touchedInsert currentState.touched key }

/-- `FormAlreadySubmittingError` has no payload; the submit error
channel `E | ParseError | FormAlreadySubmittingError` is this sum. -/
inductive SubmitError (E : Type) where
  | alreadySubmitting
  | parseError (pe : ParseError)
  | handlerError (e : E)
deriving Repr, DecidableEq

/-- The `Atom.modify` body `getRawValuesAndSetSubmitting` of `submit`:
if `isSubmitting` is set, pair a failure with the unchanged state;
otherwise capture the current `rawValues` and set `isSubmitting`, both
in this one atomic step. -/
def getRawValuesAndSetSubmitting {A : Type} (currentState : FormState A) :
    Except Unit RawRecord × FormState A :=
  if currentState.isSubmitting then
    (Except.error (), currentState)
  else
    (Except.ok currentState.rawValues,
      { currentState with isSubmitting := true })

/-- The `Atom.update` body of `submit`'s validation-failure branch:
store the parse error and set `hasSubmitted` (note: `validatedValues`
is not touched). -/
def submitStoreErrors {A : Type} (pe : ParseError) (currentState : FormState A) :
    FormState A :=
  { currentState with errors := some pe, hasSubmitted := true }

/-- The `Atom.update` body inside `submit`'s `Effect.ensuring`
finalizer: clear `isSubmitting` and set `hasSubmitted`. -/
def submitCleanup {A : Type} (currentState : FormState A) : FormState A :=
  { currentState with isSubmitting := false, hasSubmitted := true }

/-- An externally issued core action (used to model interleavings of
other actions with `submit`'s pipeline). -/
inductive FormAction where
  | setRaw (k v : String)
  | touchAct (k : String)

/-- Apply one externally issued action to the state. -/
def applyAction {A : Type} (sch : FSchema A) :
    FormAction → FormState A → FormState A
  | FormAction.setRaw k v, s => setRawValue sch k v s
  | FormAction.touchAct k, s => touch k s

/-- Apply a list of externally issued actions in order. -/
def applyActions {A : Type} (sch : FSchema A) (acts : List FormAction)
    (s : FormState A) : FormState A :=
  acts.foldl (fun s a => applyAction sch a s) s

/-- Lift a handler result into the submit error channel. -/
def handlerLift {E R : Type} : Except E R → Except (SubmitError E) R
  | Except.ok r => Except.ok r
  | Except.error e => Except.error (SubmitError.handlerError e)

/-- One `submit` execution, with a list `mid` of other actions
interleaved between the atomic guard and the rest of the pipeline
(`mid = []` is the uninterleaved run). Translated from `submit` in
`actions.ts`: the guard `Atom.modify`, then the flattened pipeline
that decodes the captured `rawValues` with `errors: "all"`, stores
errors and fails on a failed decode, or runs `onSubmit` on the decoded
value; the whole pipeline is wrapped in `Effect.ensuring` with the
cleanup update, which therefore also runs when the guard rejected the
call. Returns the submit result and the final state. -/
def submitInterleaved {A E R : Type} (sch : FSchema A)
    (onSubmit : A → Except E R) (mid : List FormAction) (s : FormState A) :
    Except (SubmitError E) R × FormState A :=
  match getRawValuesAndSetSubmitting s with
  | (Except.error _, s1) =>
    (Except.error SubmitError.alreadySubmitting, submitCleanup s1)
  | (Except.ok rawValues, s1) =>
    let s2 := applyActions sch mid s1
    match sch DecodeMode.all rawValues with
    | Except.error pe =>
      (Except.error (SubmitError.parseError pe),
        submitCleanup (submitStoreErrors pe s2))
    | Except.ok a => (handlerLift (onSubmit a), submitCleanup s2)

/-- `submit` from `actions.ts`, run to completion with no interleaved
actions. -/
def submit {A E R : Type} (sch : FSchema A) (onSubmit : A → Except E R)
    (s : FormState A) : Except (SubmitError E) R × FormState A :=
  submitInterleaved sch onSubmit [] s

/-! ### The engine's own state updates of one submission, as a trace

`submit`'s pipeline performs its state updates through the atoms; after
the guard has been passed, the updates it performs are `storeErrors`
then `cleanup` when the decode of the captured record fails, and just
`cleanup` otherwise — the `Effect.ensuring` finalizer runs on every
exit of the pipeline, whether `onSubmit` succeeded, failed, or was
interrupted. -/

/-- One engine-issued state update of `submit` after its guard. -/
inductive SubmitUpdate where
  | storeErrors (pe : ParseError)
  | cleanup
deriving Repr, DecidableEq

/-- Whether an update is the cleanup update. -/
def isCleanupUpdate : SubmitUpdate → Bool
  | SubmitUpdate.cleanup => true
  | SubmitUpdate.storeErrors _ => false

/-- How a settled `onSubmit` handler ended: success, failure, or
external interruption/cancellation. -/
inductive HandlerOutcome (E R : Type) where
  | ok (r : R)
  | fail (e : E)
  | interrupted

/-- The engine's own state updates performed by one `submit` call after
its guard has been passed, given the captured raw record and how the
handler (if reached) settled. On a failed decode the handler never
runs; on a successful decode only the `Effect.ensuring` cleanup runs,
whatever the handler outcome was. -/
def submitUpdatesAfterGuard {A E R : Type} (sch : FSchema A)
    (raw : RawRecord) (h : HandlerOutcome E R) : List SubmitUpdate :=
  match sch DecodeMode.all raw with
  | Except.error pe => [SubmitUpdate.storeErrors pe, SubmitUpdate.cleanup]
  | Except.ok _ =>
    match h with
    | HandlerOutcome.ok _ => [SubmitUpdate.cleanup]
    | HandlerOutcome.fail _ => [SubmitUpdate.cleanup]
    | HandlerOutcome.interrupted => [SubmitUpdate.cleanup]

/-- Apply one engine-issued submit update to the state. -/
def applySubmitUpdate {A : Type} : SubmitUpdate → FormState A → FormState A
  | SubmitUpdate.storeErrors pe, s => submitStoreErrors pe s
  | SubmitUpdate.cleanup, s => submitCleanup s

/-- Apply a list of engine-issued submit updates in order. -/
def applySubmitUpdates {A : Type} (us : List SubmitUpdate)
    (s : FormState A) : FormState A :=
  us.foldl (fun s u => applySubmitUpdate u s) s

/-- How many of the updates are the cleanup update. -/
def cleanupCount (us : List SubmitUpdate) : Nat :=
  (us.filter isCleanupUpdate).length

/-! ### The public error channels of `setRawValue` and `touch`

In the source both actions have type
`Effect.Effect<void, never, AtomRegistry>`: the error channel is
`never`, modelled by the uninhabited type `Empty`. -/

/-- `setRawValue` as seen at the public interface: an action whose
error channel is `never` (`Empty`), producing the updated state. -/
def setRawValueEffect {A : Type} (sch : FSchema A) (key value : String)
    (s : FormState A) : Except Empty (FormState A) :=
  Except.ok (setRawValue sch key value s)

/-- `touch` as seen at the public interface: an action whose error
channel is `never` (`Empty`), producing the updated state. -/
def touchEffect {A : Type} (key : String) (s : FormState A) :
    Except Empty (FormState A) :=
  Except.ok (touch key s)

/-! ### Error formatter (`errors.ts`) -/

/-- The keys of the formatted error map: the source uses
`string | symbol`, where `GlobalErrorKey` is a `Symbol` and thus
distinct from every string field-name key. -/
inductive PathKey where
  | GlobalErrorKey
  | field (name : String)
deriving Repr, DecidableEq

/-- The formatted error map, insertion-ordered like a JS `Map`. -/
abbrev ErrorMap := List (PathKey × List String)

/-- `Map.get`: the value at `k`, if present. -/
def mapGet : ErrorMap → PathKey → Option (List String)
  | [], _ => none
  | (k', v) :: m, k => if k' = k then some v else mapGet m k

/-- `Map.set`: replace the value at `k` in place, or append a new
entry. -/
def mapSet : ErrorMap → PathKey → List String → ErrorMap
  | [], k, v => [(k, v)]
  | (k', v') :: m, k, v =>
    if k' = k then (k, v) :: m else (k', v') :: mapSet m k v

/-- The key an issue is filed under:
`issue.path.length === 0 ? GlobalErrorKey : issue.path.join(".")`. -/
def pathKeyOf (path : List String) : PathKey :=
  if path = [] then PathKey.GlobalErrorKey
  else PathKey.field (String.intercalate "." path)

/-- One iteration of the `formatErrors` loop body. -/
def formatStep (m : ErrorMap) (issue : Issue) : ErrorMap :=
  let pathKey := pathKeyOf issue.path
  let existingMessages := (mapGet m pathKey).getD []
  mapSet m pathKey (existingMessages ++ [issue.message])

/-- `formatErrors` from `errors.ts`: fold the `ArrayFormatter` issues
of a parse error into a map from path key to the accumulated messages
for that key. -/
def formatErrors (error : ParseError) : ErrorMap :=
  error.foldl formatStep []

/-- The messages of the issues filed under key `k`, in issue order
(used to state what `formatErrors` computes). -/
def messagesFor (issues : List Issue) (k : PathKey) : List String :=
  issues.foldr
    (fun i acc => if pathKeyOf i.path = k then i.message :: acc else acc) []

/-! ### Field selector (`core/types.ts`) -/

/-- `FieldState<A, I>`: the derived read-only view of one field. The
`value` component of the source projects the validated record at the
field key; the projection `A → V` stands for `(a) => a[key]`. -/
structure FieldState (V : Type) where
  rawValue : Option String
  value : Option V
  errors : List String
  touched : Bool
  hasSubmitted : Bool
deriving Repr, DecidableEq

/-- `selectFieldState` from `core/types.ts`: format the errors (empty
map when there are none), then project raw value, validated value,
this field's messages, touched membership and the submitted flag. -/
def selectFieldState {A V : Type} (proj : A → V) (s : FormState A)
    (key : String) : FieldState V :=
  let formattedErrors :=
    match s.errors with
    | none => ([] : ErrorMap)
    | some e => formatErrors e
  { rawValue := rawGet s.rawValues key
    value := s.validatedValues.map proj
    errors := (mapGet formattedErrors (PathKey.field key)).getD []
    touched := touchedHas s.touched key
    hasSubmitted := s.hasSubmitted }

/-! ### A concrete schema semantics: effect `Schema.Struct` decoding

The engine is generic in the caller-supplied schema; the schemas the
repository builds for it are structs of per-field validators
(`Schema.Struct` in effect). Their decode checks every declared field
against the raw record: with `errors: "all"` every failing field
contributes its issue, with the default `errors: "first"` only the
first failing field is reported. -/

/-- One declared field of a struct schema: its name and its validator,
taking the raw string to a validated value or a message. -/
structure FieldSchema where
  name : String
  validate : String → Except String String

/-- Decode one field against the raw record: a missing key or a
failing validator yields the field's issue. -/
def fieldResult (f : FieldSchema) (raw : RawRecord) : Except Issue String :=
  match rawGet raw f.name with
  | none => Except.error { path := [f.name], message := "is missing" }
  | some rv =>
    match f.validate rv with
    | Except.error msg => Except.error { path := [f.name], message := msg }
    | Except.ok v => Except.ok v

/-- Decode every declared field, collecting all issues and all
validated bindings, in declaration order. -/
def collectAll : List FieldSchema → RawRecord → List Issue × ValRecord
  | [], _ => ([], [])
  | f :: fs, raw =>
    let rest := collectAll fs raw
    match fieldResult f raw with
    | Except.error i => (i :: rest.1, rest.2)
    | Except.ok v => (rest.1, (f.name, v) :: rest.2)

/-- The issue of the first failing field, if any. -/
def firstIssue : List FieldSchema → RawRecord → Option Issue
  | [], _ => none
  | f :: fs, raw =>
    match fieldResult f raw with
    | Except.error i => some i
    | Except.ok _ => firstIssue fs raw

/-- The struct schema over the given fields, as a decode function in
either parse mode. -/
def structSchema (fields : List FieldSchema) : FSchema ValRecord :=
  fun mode raw =>
    match mode with
    | DecodeMode.all =>
      match collectAll fields raw with
      | ([], vs) => Except.ok vs
      | (i :: is, _) => Except.error (i :: is)
    | DecodeMode.first =>
      match firstIssue fields raw with
      | some i => Except.error [i]
      | none => Except.ok (collectAll fields raw).2

/-- A required text field: rejects the empty raw string. -/
def requiredField (n : String) : FieldSchema :=
  { name := n
    validate := fun v =>
      if v = "" then Except.error "required" else Except.ok v }

/-! ### The decode-coherence invariant and reachable states -/

/-- Decode coherence of a snapshot: `validatedValues` is present
exactly when the all-errors decode of the current `rawValues`
succeeds, and `errors` exactly when it fails. -/
def Consistent {A : Type} (sch : FSchema A) (s : FormState A) : Prop :=
  s.validatedValues.isSome = isOkB (sch DecodeMode.all s.rawValues) ∧
  s.errors.isSome = !isOkB (sch DecodeMode.all s.rawValues)

/-- One fully applied core action: `setRawValue`, `touch`, or an
entire (uninterleaved) `submit` call with its handler. -/
inductive EngineStep (A E R : Type) where
  | setRawStep (k v : String)
  | touchStep (k : String)
  | submitStep (onSubmit : A → Except E R)

/-- Apply one core action to the state. -/
def applyEngineStep {A E R : Type} (sch : FSchema A) :
    EngineStep A E R → FormState A → FormState A
  | EngineStep.setRawStep k v, s => setRawValue sch k v s
  | EngineStep.touchStep k, s => touch k s
  | EngineStep.submitStep onSubmit, s => (submit sch onSubmit s).2

/-- Apply a sequence of core actions from a starting state. -/
def runSteps {A E R : Type} (sch : FSchema A)
    (steps : List (EngineStep A E R)) (s : FormState A) : FormState A :=
  steps.foldl (fun s st => applyEngineStep sch st s) s

/-- A sequence of `setRawValue` calls, applied in order. -/
def runSetCalls {A : Type} (sch : FSchema A)
    (calls : List (String × String)) (s : FormState A) : FormState A :=
  calls.foldl (fun s c => setRawValue sch c.1 c.2 s) s

/-- The value of the latest call in `calls` that set key `k`, if any. -/
def lastSet : List (String × String) → String → Option String
  | [], _ => none
  | c :: cs, k =>
    match lastSet cs k with
    | some v => some v
    | none => if c.1 = k then some c.2 else none

/-- Whether a key is the sentinel for path-less errors. -/
def isGlobalKey : PathKey → Bool
  | PathKey.GlobalErrorKey => true
  | PathKey.field _ => false

/-! ### Concrete instances used by witnesses and counterexamples -/

/-- A two-field schema, both fields required. -/
def demoFields : List FieldSchema := [requiredField "a", requiredField "b"]

/-- The struct schema over `demoFields`. -/
def demoSchema : FSchema ValRecord := structSchema demoFields

/-- A submit handler that always succeeds. -/
def demoHandler : ValRecord → Except Unit Nat := fun _ => Except.ok 0

/-- A submit handler that returns the validated record it was given. -/
def isoHandler : ValRecord → Except Unit ValRecord := fun vs => Except.ok vs

/-- A form state with a submission in flight. -/
def inFlightState : FormState ValRecord :=
  { rawValues := [("a", "x")]
    validatedValues := none
    errors := none
    touched := []
    isSubmitting := true
    hasSubmitted := false }

/-- A one-field schema: `a` is required. -/
def raceSchema : FSchema ValRecord := structSchema [requiredField "a"]

/-- A form created with an invalid value for `a`. -/
def raceStart : FormState ValRecord := createForm raceSchema [("a", "")]

/-- The final state of a `submit` call on `raceStart` with a
`setRawValue` making the form valid interleaved between the guard and
the decode of the captured (invalid) snapshot. -/
def raceFinal : FormState ValRecord :=
  (submitInterleaved raceSchema demoHandler
    [FormAction.setRaw "a" "x"] raceStart).2

/-- A raw record in which both required fields are empty. -/
def c5raw : RawRecord := [("a", ""), ("b", "")]

/-- A form created with two valid fields. -/
def validStart : FormState ValRecord :=
  createForm demoSchema [("a", "x"), ("b", "y")]

/-! ### Helper lemmas -/

theorem getRight_isSome {E A : Type} (x : Except E A) :
    (getRight x).isSome = isOkB x := by
  cases x <;> rfl

theorem getLeft_isSome {E A : Type} (x : Except E A) :
    (getLeft x).isSome = !isOkB x := by
  cases x <;> rfl

theorem rawGet_overwriteKey_ne {r : RawRecord} {k k' : String} (v : String)
    (h : k' ≠ k) : rawGet (overwriteKey r k v) k' = rawGet r k' := by
  induction r with
  | nil => rfl
  | cons p r ih =>
    obtain ⟨k0, v0⟩ := p
    by_cases hk : k0 = k
    · subst hk
      have hne : ¬(k0 = k') := fun hE => h hE.symm
      simp [overwriteKey, rawGet, hne, ih]
    · simp only [overwriteKey, if_neg hk]
      by_cases hk' : k0 = k'
      · simp [rawGet, hk']
      · simp [rawGet, hk', ih]

theorem rawGet_overwriteKey_self {r : RawRecord} {k : String} (v : String)
    (h : hasKey r k = true) : rawGet (overwriteKey r k v) k = some v := by
  induction r with
  | nil => simp [hasKey] at h
  | cons p r ih =>
    obtain ⟨k0, v0⟩ := p
    by_cases hk : k0 = k
    · simp [overwriteKey, hk, rawGet]
    · simp only [hasKey, if_neg hk] at h
      simp [overwriteKey, hk, rawGet, ih h]

theorem rawGet_append_single {r : RawRecord} {k k' : String} (v : String) :
    rawGet (r ++ [(k, v)]) k' =
      match rawGet r k' with
      | some w => some w
      | none => if k = k' then some v else none := by
  induction r with
  | nil => simp [rawGet]
  | cons p r ih =>
    obtain ⟨k0, v0⟩ := p
    by_cases hk : k0 = k'
    · simp [rawGet, hk]
    · simp [rawGet, hk, ih]

theorem hasKey_false_rawGet_none {r : RawRecord} {k : String}
    (h : hasKey r k = false) : rawGet r k = none := by
  induction r with
  | nil => rfl
  | cons p r ih =>
    obtain ⟨k0, v0⟩ := p
    by_cases hk : k0 = k
    · simp [hasKey, hk] at h
    · simp only [hasKey, if_neg hk] at h
      simp [rawGet, hk, ih h]

theorem rawGet_setKey (r : RawRecord) (k v k' : String) :
    rawGet (setKey r k v) k' = if k' = k then some v else rawGet r k' := by
  unfold setKey
  cases hh : hasKey r k with
  | true =>
    simp only [if_pos rfl]
    by_cases hk : k' = k
    · subst hk; simp [rawGet_overwriteKey_self v hh]
    · simp [hk, rawGet_overwriteKey_ne v hk]
  | false =>
    rw [if_neg (by simp)]
    rw [rawGet_append_single]
    by_cases hk : k' = k
    · subst hk; simp [hasKey_false_rawGet_none hh]
    · have hne : ¬(k = k') := fun hE => hk hE.symm
      cases hr : rawGet r k' <;> simp [hk, hne]

theorem touchedHas_iff {l : List String} {k : String} :
    touchedHas l k = true ↔ k ∈ l := by
  induction l with
  | nil => simp [touchedHas]
  | cons x l ih =>
    by_cases hx : x = k
    · simp [touchedHas, hx]
    · have hne : ¬(k = x) := fun hE => hx hE.symm
      simp [touchedHas, hx, ih, hne]

theorem touchedInsert_mem {l : List String} {k k' : String} :
    k' ∈ touchedInsert l k ↔ k' ∈ l ∨ k' = k := by
  unfold touchedInsert
  cases hh : touchedHas l k with
  | true =>
    have hk : k ∈ l := touchedHas_iff.mp hh
    simp only [if_pos rfl]
    constructor
    · exact fun h => Or.inl h
    · rintro (h | rfl)
      · exact h
      · exact hk
  | false =>
    simp [List.mem_append]

theorem touchedHas_insert_self (l : List String) (k : String) :
    touchedHas (touchedInsert l k) k = true :=
  touchedHas_iff.mpr (touchedInsert_mem.mpr (Or.inr rfl))

theorem touchedInsert_idem (l : List String) (k : String) :
    touchedInsert (touchedInsert l k) k = touchedInsert l k := by
  rw [touchedInsert, touchedHas_insert_self]
  simp

/-! ### Invariant preservation -/

theorem consistent_createForm {A : Type} (sch : FSchema A)
    (init : RawRecord) (hm : ModeConsistent sch) :
    Consistent sch (createForm sch init) := by
  unfold Consistent createForm
  simp [getRight_isSome, getLeft_isSome, hm init]

theorem consistent_setRawValue {A : Type} (sch : FSchema A) (k v : String)
    (s : FormState A) : Consistent sch (setRawValue sch k v s) := by
  unfold Consistent setRawValue
  simp [getRight_isSome, getLeft_isSome]

theorem consistent_touch {A : Type} (sch : FSchema A) (k : String)
    (s : FormState A) (h : Consistent sch s) : Consistent sch (touch k s) := by
  unfold Consistent touch
  exact h

theorem consistent_submitCleanup {A : Type} (sch : FSchema A)
    (s : FormState A) (h : Consistent sch s) :
    Consistent sch (submitCleanup s) := by
  unfold Consistent submitCleanup
  exact h

theorem submit_state_eq {A E R : Type} (sch : FSchema A)
    (onSubmit : A → Except E R) (s : FormState A) :
    (submit sch onSubmit s).2 =
      if s.isSubmitting then submitCleanup s
      else
        match sch DecodeMode.all s.rawValues with
        | Except.error pe =>
          submitCleanup (submitStoreErrors pe { s with isSubmitting := true })
        | Except.ok _ => submitCleanup { s with isSubmitting := true } := by
  unfold submit submitInterleaved getRawValuesAndSetSubmitting
  by_cases hsub : s.isSubmitting = true
  · simp [hsub]
  · simp only [Bool.not_eq_true] at hsub
    rw [hsub]
    simp only [Bool.false_eq_true, if_false]
    cases hd : sch DecodeMode.all s.rawValues <;>
      simp [applyActions, hd]

theorem consistent_submit {A E R : Type} (sch : FSchema A)
    (onSubmit : A → Except E R) (s : FormState A) (h : Consistent sch s) :
    Consistent sch (submit sch onSubmit s).2 := by
  rw [submit_state_eq]
  by_cases hsub : s.isSubmitting = true
  · rw [if_pos hsub]
    exact h
  · rw [if_neg hsub]
    cases hd : sch DecodeMode.all s.rawValues with
    | ok a => exact h
    | error pe =>
      unfold Consistent
      refine ⟨?_, ?_⟩
      · show s.validatedValues.isSome = isOkB (sch DecodeMode.all s.rawValues)
        exact h.1
      · show (some pe).isSome = !isOkB (sch DecodeMode.all s.rawValues)
        rw [hd]
        rfl

theorem consistent_runSteps {A E R : Type} (sch : FSchema A)
    (steps : List (EngineStep A E R)) (s : FormState A)
    (h : Consistent sch s) : Consistent sch (runSteps sch steps s) := by
  induction steps generalizing s with
  | nil => exact h
  | cons st steps ih =>
    refine ih _ ?_
    cases st with
    | setRawStep k v => exact consistent_setRawValue sch k v s
    | touchStep k => exact consistent_touch sch k s h
    | submitStep onSubmit => exact consistent_submit sch onSubmit s h

theorem rawGet_runSetCalls {A : Type} (sch : FSchema A)
    (calls : List (String × String)) (s : FormState A) (k : String) :
    rawGet (runSetCalls sch calls s).rawValues k =
      match lastSet calls k with
      | some v => some v
      | none => rawGet s.rawValues k := by
  induction calls generalizing s with
  | nil => rfl
  | cons c cs ih =>
    have hstep : (setRawValue sch c.1 c.2 s).rawValues
        = setKey s.rawValues c.1 c.2 := rfl
    show rawGet (runSetCalls sch cs (setRawValue sch c.1 c.2 s)).rawValues k = _
    rw [ih]
    cases hl : lastSet cs k with
    | some v => simp [lastSet, hl]
    | none =>
      simp only [lastSet, hl, hstep, rawGet_setKey]
      by_cases hk : c.1 = k
      · subst hk; simp
      · have hne : ¬(k = c.1) := fun hE => hk hE.symm
        simp [hk, hne]

theorem consistent_runSetCalls {A : Type} (sch : FSchema A)
    (calls : List (String × String)) (s : FormState A)
    (h : Consistent sch s) : Consistent sch (runSetCalls sch calls s) := by
  induction calls generalizing s with
  | nil => exact h
  | cons c cs ih => exact ih _ (consistent_setRawValue sch c.1 c.2 s)

/-! ### Lemmas about the struct-schema decode -/

theorem firstIssue_none_iff (fields : List FieldSchema) (raw : RawRecord) :
    firstIssue fields raw = none ↔ (collectAll fields raw).1 = [] := by
  induction fields with
  | nil => simp [firstIssue, collectAll]
  | cons f fs ih =>
    cases hf : fieldResult f raw <;>
      simp [firstIssue, collectAll, hf, ih]

theorem structSchema_modeConsistent (fields : List FieldSchema) :
    ModeConsistent (structSchema fields) := by
  intro raw
  cases hc : collectAll fields raw with
  | mk is vs =>
    cases is with
    | nil =>
      have hfi : firstIssue fields raw = none :=
        (firstIssue_none_iff _ _).mpr (by rw [hc])
      simp [structSchema, hfi, hc, isOkB]
    | cons i0 is0 =>
      have hfi : firstIssue fields raw ≠ none := by
        intro hN
        have h2 := (firstIssue_none_iff fields raw).mp hN
        rw [hc] at h2
        cases h2
      cases hfi2 : firstIssue fields raw with
      | none => exact absurd hfi2 hfi
      | some j => simp [structSchema, hfi2, hc, isOkB]

theorem mem_collectAll {fields : List FieldSchema} {raw : RawRecord}
    {f : FieldSchema} {i : Issue} (hf : f ∈ fields)
    (he : fieldResult f raw = Except.error i) :
    i ∈ (collectAll fields raw).1 := by
  induction fields with
  | nil => cases hf
  | cons g fs ih =>
    rcases List.mem_cons.mp hf with rfl | hf2
    · simp [collectAll, he]
    · cases hg : fieldResult g raw with
      | error j =>
        simp only [collectAll, hg]
        exact List.mem_cons_of_mem _ (ih hf2)
      | ok v =>
        simp only [collectAll, hg]
        exact ih hf2

theorem structSchema_all_error {fields : List FieldSchema} {raw : RawRecord}
    {i : Issue} (hi : i ∈ (collectAll fields raw).1) :
    structSchema fields DecodeMode.all raw
      = Except.error (collectAll fields raw).1 := by
  cases hc : collectAll fields raw with
  | mk is vs =>
    rw [hc] at hi
    cases is with
    | nil => cases hi
    | cons i0 is0 => simp [structSchema, hc]

/-! ### Lemmas about the error formatter -/

theorem mapGet_mapSet (m : ErrorMap) (k k' : PathKey) (v : List String) :
    mapGet (mapSet m k v) k' = if k' = k then some v else mapGet m k' := by
  induction m with
  | nil =>
    by_cases h : k' = k
    · subst h; simp [mapSet, mapGet]
    · have hne : ¬(k = k') := fun hE => h hE.symm
      simp [mapSet, mapGet, h, hne]
  | cons p m ih =>
    obtain ⟨k0, v0⟩ := p
    by_cases h0 : k0 = k
    · subst h0
      by_cases h : k' = k0
      · subst h; simp [mapSet, mapGet]
      · have hne : ¬(k0 = k') := fun hE => h hE.symm
        simp [mapSet, mapGet, h, hne]
    · by_cases h : k' = k0
      · subst h
        have hne : ¬(k' = k) := fun hE => h0 (hE.symm ▸ rfl)
        simp [mapSet, mapGet, h0, hne]
      · have hne : ¬(k0 = k') := fun hE => h hE.symm
        simp [mapSet, mapGet, h0, hne, ih]

theorem messagesFor_cons (i : Issue) (is : List Issue) (k : PathKey) :
    messagesFor (i :: is) k =
      if pathKeyOf i.path = k then i.message :: messagesFor is k
      else messagesFor is k := rfl

theorem mapGet_foldl_formatStep (issues : List Issue) (m : ErrorMap)
    (k : PathKey) :
    mapGet (issues.foldl formatStep m) k =
      match mapGet m k with
      | some ex => some (ex ++ messagesFor issues k)
      | none =>
        if messagesFor issues k = [] then none
        else some (messagesFor issues k) := by
  induction issues generalizing m with
  | nil =>
    cases hm : mapGet m k <;> simp [messagesFor, hm]
  | cons i is ih =>
    show mapGet (is.foldl formatStep (formatStep m i)) k = _
    rw [ih]
    by_cases hpk : pathKeyOf i.path = k
    · have hget : mapGet (formatStep m i) k
          = some ((mapGet m (pathKeyOf i.path)).getD [] ++ [i.message]) := by
        unfold formatStep
        rw [mapGet_mapSet]
        simp [hpk]
      rw [hget, messagesFor_cons, if_pos hpk, hpk]
      cases hm : mapGet m k <;> simp [hm]
    · have hget : mapGet (formatStep m i) k = mapGet m k := by
        unfold formatStep
        rw [mapGet_mapSet]
        have hne : ¬(k = pathKeyOf i.path) := fun hE => hpk hE.symm
        simp [hne]
      rw [hget, messagesFor_cons, if_neg hpk]

theorem mapGet_formatErrors (issues : List Issue) (k : PathKey) :
    mapGet (formatErrors issues) k =
      if messagesFor issues k = [] then none
      else some (messagesFor issues k) := by
  unfold formatErrors
  rw [mapGet_foldl_formatStep]
  rfl

/-! ### The claims -/

/-- Claim C1, refuted by the code (code bug): a `submit` call issued
while `isSubmitting` is true does fail immediately with
`FormAlreadySubmittingError`, but it does not leave the form state
unchanged: `Effect.ensuring` wraps the whole pipeline, guard included,
so the rejected call still runs the cleanup update, resetting
`isSubmitting` to false (clobbering the in-flight submission's flag)
and setting `hasSubmitted` to true. Evaluated here at a concrete
in-flight state. -/
theorem submit_rejected_call_mutates_state :
    (submit raceSchema demoHandler inFlightState).1
        = Except.error SubmitError.alreadySubmitting
    ∧ (submit raceSchema demoHandler inFlightState).2
        = { inFlightState with isSubmitting := false, hasSubmitted := true }
    ∧ inFlightState.isSubmitting = true
    ∧ (submit raceSchema demoHandler inFlightState).2.isSubmitting = false
    ∧ inFlightState.hasSubmitted = false
    ∧ (submit raceSchema demoHandler inFlightState).2.hasSubmitted = true := by
  decide

/-- Claim C2: snapshot isolation of `submit`. When the guard is passed
it captures the guard-time `rawValues`; whatever `setRawValue`/`touch`
actions are interleaved afterwards, the submit outcome — the decode of
the captured record and the validated value handed to `onSubmit` — is
the one computed from the captured `rawValues`, identical to the
uninterleaved run. -/
theorem submit_snapshot_isolation {A E R : Type} (sch : FSchema A)
    (onSubmit : A → Except E R) (mid : List FormAction) (s : FormState A)
    (hs : s.isSubmitting = false) :
    (getRawValuesAndSetSubmitting s).1 = Except.ok s.rawValues
    ∧ (submitInterleaved sch onSubmit mid s).1 = (submit sch onSubmit s).1
    ∧ (∀ a, sch DecodeMode.all s.rawValues = Except.ok a →
        (submitInterleaved sch onSubmit mid s).1 = handlerLift (onSubmit a))
    ∧ (∀ pe, sch DecodeMode.all s.rawValues = Except.error pe →
        (submitInterleaved sch onSubmit mid s).1
          = Except.error (SubmitError.parseError pe)) := by
  have hguard : getRawValuesAndSetSubmitting s
      = (Except.ok s.rawValues, { s with isSubmitting := true }) := by
    unfold getRawValuesAndSetSubmitting
    rw [hs]
    simp
  have hrun : ∀ (mid2 : List FormAction),
      (submitInterleaved sch onSubmit mid2 s).1 =
        match sch DecodeMode.all s.rawValues with
        | Except.error pe => Except.error (SubmitError.parseError pe)
        | Except.ok a => handlerLift (onSubmit a) := by
    intro mid2
    unfold submitInterleaved
    rw [hguard]
    cases hd : sch DecodeMode.all s.rawValues <;> simp [hd]
  refine ⟨by rw [hguard], ?_, ?_, ?_⟩
  · rw [hrun mid,
      show submit sch onSubmit s = submitInterleaved sch onSubmit [] s
        from rfl,
      hrun []]
  · intro a ha
    rw [hrun mid, ha]
  · intro pe hp
    rw [hrun mid, hp]

/-- Witness for C2 at a concrete run: with a `setRawValue` that blanks
field `a` interleaved after the guard, the handler still receives the
record captured at the guard step. -/
theorem submit_snapshot_isolation_witness :
    (submitInterleaved demoSchema isoHandler
        [FormAction.setRaw "a" ""] validStart).1
      = handlerLift (isoHandler [("a", "x"), ("b", "y")]) :=
  (submit_snapshot_isolation demoSchema isoHandler
      [FormAction.setRaw "a" ""] validStart rfl).2.2.1
    [("a", "x"), ("b", "y")] (by decide)

/-- Claim C3: a `submit` call that passes the guard performs the
cleanup update exactly once, as its last engine update, on every
settle path — validation failure, handler success, handler failure,
or handler interruption — and its final state has `isSubmitting =
false` and `hasSubmitted = true`. -/
theorem submit_guaranteed_cleanup {A E R : Type} (sch : FSchema A)
    (onSubmit : A → Except E R) (h : HandlerOutcome E R) (raw : RawRecord)
    (s t : FormState A) (hs : s.isSubmitting = false) :
    cleanupCount (submitUpdatesAfterGuard sch raw h) = 1
    ∧ (submitUpdatesAfterGuard sch raw h).getLast?
        = some SubmitUpdate.cleanup
    ∧ (applySubmitUpdates (submitUpdatesAfterGuard sch raw h) t).isSubmitting
        = false
    ∧ (applySubmitUpdates (submitUpdatesAfterGuard sch raw h) t).hasSubmitted
        = true
    ∧ (submit sch onSubmit s).2.isSubmitting = false
    ∧ (submit sch onSubmit s).2.hasSubmitted = true := by
  have hfinal : (submit sch onSubmit s).2.isSubmitting = false
      ∧ (submit sch onSubmit s).2.hasSubmitted = true := by
    rw [submit_state_eq, hs]
    simp only [Bool.false_eq_true, if_false]
    cases hd : sch DecodeMode.all s.rawValues <;> exact ⟨rfl, rfl⟩
  refine ⟨?_, ?_, ?_, ?_, hfinal.1, hfinal.2⟩ <;>
    · unfold submitUpdatesAfterGuard
      cases hd : sch DecodeMode.all raw <;> cases h <;>
        simp [cleanupCount, isCleanupUpdate, applySubmitUpdates,
          applySubmitUpdate, submitCleanup, submitStoreErrors]

/-- Witness for C3 at a concrete run: an interrupted handler still has
exactly one cleanup update, and a concrete completed `submit` leaves
`isSubmitting = false` and `hasSubmitted = true`. -/
theorem submit_guaranteed_cleanup_witness :
    cleanupCount (submitUpdatesAfterGuard demoSchema [("a", "")]
        (HandlerOutcome.interrupted : HandlerOutcome Unit Nat)) = 1
    ∧ (submit demoSchema demoHandler validStart).2.isSubmitting = false
    ∧ (submit demoSchema demoHandler validStart).2.hasSubmitted = true :=
  ⟨(submit_guaranteed_cleanup demoSchema demoHandler
      HandlerOutcome.interrupted [("a", "")] validStart validStart rfl).1,
   (submit_guaranteed_cleanup demoSchema demoHandler
      HandlerOutcome.interrupted [("a", "")] validStart validStart
      rfl).2.2.2.2.1,
   (submit_guaranteed_cleanup demoSchema demoHandler
      HandlerOutcome.interrupted [("a", "")] validStart validStart
      rfl).2.2.2.2.2⟩

/-- Counterexample to claim C4: `errors` and `validatedValues` are not
mutually exclusive in every reachable state once `submit`'s internal
updates interleave with other actions. Starting from a form created
with an invalid `a`, a `submit` captures the invalid snapshot; an
interleaved `setRawValue` then makes the state valid
(`validatedValues` present); the submission's validation-failure
update stores `errors` without clearing `validatedValues`, so the
resulting state has both present. -/
theorem errors_and_validated_both_present :
    raceFinal.errors.isSome = true
    ∧ raceFinal.validatedValues.isSome = true := by
  decide

/-- Claim C4 (amended): along every sequence of whole core actions —
`setRawValue`, `touch`, and uninterleaved `submit` calls — from a
created form, `errors` and `validatedValues` are mutually exclusive:
exactly one of the two is present (for schemas whose decode succeeds
in default mode exactly when it succeeds in all-errors mode). The
claim as stated fails for interleaved runs, since `submit`'s
validation-failure update sets `errors` without clearing
`validatedValues`. -/
theorem errors_validated_mutually_exclusive {A E R : Type}
    (sch : FSchema A) (init : RawRecord)
    (steps : List (EngineStep A E R)) (hm : ModeConsistent sch) :
    ((runSteps sch steps (createForm sch init)).errors.isSome = true
      ∧ (runSteps sch steps (createForm sch init)).validatedValues.isSome
          = false)
    ∨ ((runSteps sch steps (createForm sch init)).errors.isSome = false
      ∧ (runSteps sch steps (createForm sch init)).validatedValues.isSome
          = true) := by
  have hc := consistent_runSteps sch steps (createForm sch init)
      (consistent_createForm sch init hm)
  rcases hc with ⟨h1, h2⟩
  cases hok : isOkB (sch DecodeMode.all
      (runSteps sch steps (createForm sch init)).rawValues) with
  | false =>
    left
    rw [h1, h2, hok]
    exact ⟨rfl, rfl⟩
  | true =>
    right
    rw [h1, h2, hok]
    exact ⟨rfl, rfl⟩

/-- Witness for the amended C4 at a concrete action sequence mixing
all three core actions. -/
theorem errors_validated_mutually_exclusive_witness :
    ((runSteps demoSchema
        [EngineStep.setRawStep "a" "x", EngineStep.touchStep "a",
          EngineStep.submitStep demoHandler]
        (createForm demoSchema [("a", ""), ("b", "y")])).errors.isSome
          = true
      ∧ (runSteps demoSchema
        [EngineStep.setRawStep "a" "x", EngineStep.touchStep "a",
          EngineStep.submitStep demoHandler]
        (createForm demoSchema [("a", ""), ("b", "y")])).validatedValues.isSome
          = false)
    ∨ ((runSteps demoSchema
        [EngineStep.setRawStep "a" "x", EngineStep.touchStep "a",
          EngineStep.submitStep demoHandler]
        (createForm demoSchema [("a", ""), ("b", "y")])).errors.isSome
          = false
      ∧ (runSteps demoSchema
        [EngineStep.setRawStep "a" "x", EngineStep.touchStep "a",
          EngineStep.submitStep demoHandler]
        (createForm demoSchema [("a", ""), ("b", "y")])).validatedValues.isSome
          = true) :=
  errors_validated_mutually_exclusive demoSchema [("a", ""), ("b", "y")]
    [EngineStep.setRawStep "a" "x", EngineStep.touchStep "a",
      EngineStep.submitStep demoHandler]
    (structSchema_modeConsistent demoFields)

/-- Counterexample to claim C5: on a record with two invalid fields,
`createForm`'s eager initial decode (which passes no parse options,
hence the library default `errors: "first"`) reports only the first
invalid field. Field `b` is invalid on the record, yet the stored
error tree holds only field `a`'s issue and no issue for path
`["b"]`. -/
theorem createForm_first_error_only :
    fieldResult (requiredField "b") c5raw
      = Except.error { path := ["b"], message := "required" }
    ∧ (createForm (structSchema demoFields) c5raw).errors
      = some [{ path := ["a"], message := "required" }]
    ∧ (([{ path := ["a"], message := "required" }] : List Issue).filter
        (fun i => i.path == ["b"])).length = 0 := by
  decide

/-- Claim C5 (amended): the re-decode in `setRawValue` and the decode
of the captured snapshot in `submit` run in all-errors mode — every
invalid field of the decoded record contributes its issue to the
stored error tree — while the eager initial decode in `createForm`
runs in the library default first-error mode and stores exactly one
issue whenever it fails. -/
theorem engine_decode_modes {E R : Type} (fields : List FieldSchema)
    (f : FieldSchema) (i : Issue) (k v : String) (s : FormState ValRecord)
    (onSubmit : ValRecord → Except E R) (init : RawRecord)
    (es : ParseError) (hf : f ∈ fields) :
    (fieldResult f (setKey s.rawValues k v) = Except.error i →
      ∃ es1, (setRawValue (structSchema fields) k v s).errors = some es1
        ∧ i ∈ es1)
    ∧ (s.isSubmitting = false →
      fieldResult f s.rawValues = Except.error i →
      ∃ es2, (submit (structSchema fields) onSubmit s).2.errors = some es2
        ∧ i ∈ es2)
    ∧ ((createForm (structSchema fields) init).errors = some es →
      es.length = 1) := by
  refine ⟨?_, ?_, ?_⟩
  · intro he
    have hi := mem_collectAll hf he
    have hda := structSchema_all_error hi
    refine ⟨(collectAll fields (setKey s.rawValues k v)).1, ?_, hi⟩
    show getLeft
        (structSchema fields DecodeMode.all (setKey s.rawValues k v)) = _
    rw [hda]
    rfl
  · intro hs he
    have hi := mem_collectAll hf he
    have hda := structSchema_all_error hi
    refine ⟨(collectAll fields s.rawValues).1, ?_, hi⟩
    rw [submit_state_eq, hs]
    simp only [Bool.false_eq_true, if_false]
    rw [hda]
    rfl
  · intro hcf
    cases hfi : firstIssue fields init with
    | none =>
      exfalso
      have hnone : (createForm (structSchema fields) init).errors = none := by
        show getLeft (structSchema fields DecodeMode.first init) = none
        simp [structSchema, hfi, getLeft]
      rw [hnone] at hcf
      cases hcf
    | some j =>
      have hone : (createForm (structSchema fields) init).errors
          = some [j] := by
        show getLeft (structSchema fields DecodeMode.first init) = some [j]
        simp [structSchema, hfi, getLeft]
      rw [hone] at hcf
      cases hcf
      rfl

/-- Witness for the amended C5: blanking field `b` via `setRawValue`
stores an error tree that contains field `b`'s issue. -/
theorem engine_decode_modes_witness :
    ∃ es1, (setRawValue (structSchema demoFields) "b" "" validStart).errors
        = some es1
      ∧ { path := ["b"], message := "required" } ∈ es1 :=
  (engine_decode_modes demoFields (requiredField "b")
      { path := ["b"], message := "required" } "b" "" validStart
      demoHandler [] []
      (List.mem_cons_of_mem _ (List.mem_cons_self _ _))).1
    (by decide)

/-- Claim C6: for every sequence of `setRawValue` calls from a created
form, each key of the resulting `rawValues` holds the latest value set
for it (falling back to the initial record); `validatedValues` is
present exactly when the all-errors decode of the resulting record
succeeds and `errors` exactly when it fails; and a single
`setRawValue` update replaces `rawValues`, `validatedValues` and
`errors` together from the one decode of the merged record. -/
theorem setRawValue_sequence {A : Type} (sch : FSchema A)
    (init : RawRecord) (calls : List (String × String))
    (k k0 v0 : String) (s : FormState A) (hm : ModeConsistent sch) :
    (rawGet (runSetCalls sch calls (createForm sch init)).rawValues k =
      match lastSet calls k with
      | some v => some v
      | none => rawGet init k)
    ∧ ((runSetCalls sch calls (createForm sch init)).validatedValues.isSome
        = isOkB (sch DecodeMode.all
            (runSetCalls sch calls (createForm sch init)).rawValues))
    ∧ ((runSetCalls sch calls (createForm sch init)).errors.isSome
        = !isOkB (sch DecodeMode.all
            (runSetCalls sch calls (createForm sch init)).rawValues))
    ∧ (setRawValue sch k0 v0 s).rawValues = setKey s.rawValues k0 v0
    ∧ (setRawValue sch k0 v0 s).validatedValues
        = getRight (sch DecodeMode.all (setKey s.rawValues k0 v0))
    ∧ (setRawValue sch k0 v0 s).errors
        = getLeft (sch DecodeMode.all (setKey s.rawValues k0 v0)) := by
  have hcon := consistent_runSetCalls sch calls (createForm sch init)
      (consistent_createForm sch init hm)
  refine ⟨?_, hcon.1, hcon.2, rfl, rfl, rfl⟩
  rw [rawGet_runSetCalls]
  cases lastSet calls k <;> rfl

/-- Witness for C6 at a concrete call sequence: two writes to `a`, the
second winning, and an untouched `b` falling back to the initial
record. -/
theorem setRawValue_sequence_witness :
    (rawGet (runSetCalls demoSchema [("a", "x"), ("a", "z")]
        (createForm demoSchema [("a", ""), ("b", "y")])).rawValues "a" =
      match lastSet [("a", "x"), ("a", "z")] "a" with
      | some v => some v
      | none => rawGet [("a", ""), ("b", "y")] "a")
    ∧ (rawGet (runSetCalls demoSchema [("a", "x"), ("a", "z")]
        (createForm demoSchema [("a", ""), ("b", "y")])).rawValues "b" =
      match lastSet [("a", "x"), ("a", "z")] "b" with
      | some v => some v
      | none => rawGet [("a", ""), ("b", "y")] "b") :=
  ⟨(setRawValue_sequence demoSchema [("a", ""), ("b", "y")]
      [("a", "x"), ("a", "z")] "a" "a" "x" validStart
      (structSchema_modeConsistent demoFields)).1,
   (setRawValue_sequence demoSchema [("a", ""), ("b", "y")]
      [("a", "x"), ("a", "z")] "b" "a" "x" validStart
      (structSchema_modeConsistent demoFields)).1⟩

/-- Claim C7: `touch` is idempotent — touching the same key twice
yields the same state as touching it once — it adds the key to the
touched set by union semantics, and it changes no other field of the
state. -/
theorem touch_idempotent {A : Type} (s : FormState A) (k k' : String) :
    touch k (touch k s) = touch k s
    ∧ (touch k s).rawValues = s.rawValues
    ∧ (touch k s).validatedValues = s.validatedValues
    ∧ (touch k s).errors = s.errors
    ∧ (touch k s).isSubmitting = s.isSubmitting
    ∧ (touch k s).hasSubmitted = s.hasSubmitted
    ∧ (k' ∈ (touch k s).touched ↔ k' ∈ s.touched ∨ k' = k) := by
  refine ⟨?_, rfl, rfl, rfl, rfl, rfl, ?_⟩
  · have h1 : touch k (touch k s)
        = { s with touched := touchedInsert (touchedInsert s.touched k) k } :=
      rfl
    rw [h1, touchedInsert_idem]
    rfl
  · show k' ∈ touchedInsert s.touched k ↔ _
    exact touchedInsert_mem

/-- Witness for C7 at a concrete state and key. -/
theorem touch_idempotent_witness :
    touch "a" (touch "a" validStart) = touch "a" validStart :=
  (touch_idempotent validStart "a" "b").1

/-- Claim C8: `formatErrors` groups issues by field path — the entry
for a key is exactly the messages of the issues filed under that key,
accumulated in issue order, never overwriting one another (and absent
when there are none) — issues with an empty path are filed under the
sentinel `GlobalErrorKey`, which is distinct from every field-name
key. -/
theorem formatErrors_groups_by_path (issues : ParseError) (k : PathKey)
    (name : String) :
    mapGet (formatErrors issues) k
      = (if messagesFor issues k = [] then none
         else some (messagesFor issues k))
    ∧ pathKeyOf [] = PathKey.GlobalErrorKey
    ∧ isGlobalKey PathKey.GlobalErrorKey = true
    ∧ isGlobalKey (PathKey.field name) = false := by
  refine ⟨mapGet_formatErrors issues k, ?_, rfl, rfl⟩
  simp [pathKeyOf]

/-- Witness for C8 at a concrete issue list: two issues on path `a`,
one on path `b`, one path-less. -/
theorem formatErrors_groups_by_path_witness :
    mapGet (formatErrors
        [{ path := ["a"], message := "m1" },
         { path := ["b"], message := "m2" },
         { path := ["a"], message := "m3" },
         { path := [], message := "m4" }]) (PathKey.field "a")
      = (if messagesFor
            [{ path := ["a"], message := "m1" },
             { path := ["b"], message := "m2" },
             { path := ["a"], message := "m3" },
             { path := [], message := "m4" }] (PathKey.field "a") = []
         then none
         else some (messagesFor
            [{ path := ["a"], message := "m1" },
             { path := ["b"], message := "m2" },
             { path := ["a"], message := "m3" },
             { path := [], message := "m4" }] (PathKey.field "a"))) :=
  (formatErrors_groups_by_path
      [{ path := ["a"], message := "m1" },
       { path := ["b"], message := "m2" },
       { path := ["a"], message := "m3" },
       { path := [], message := "m4" }] (PathKey.field "a") "a").1

/-- Claim C9: `selectFieldState` projects the snapshot faithfully:
`rawValue` is the record lookup at the key; `value` is the projection
of `validatedValues` (absent whenever `validatedValues` is absent);
`errors` is the formatted message list for the key, empty when the
snapshot has no errors or no entry for the key; `touched` is
membership of the key in the touched set; and `hasSubmitted` mirrors
the snapshot's flag. -/
theorem selectFieldState_projection {A V : Type} (proj : A → V)
    (s : FormState A) (key : String) :
    (selectFieldState proj s key).rawValue = rawGet s.rawValues key
    ∧ (selectFieldState proj s key).value = s.validatedValues.map proj
    ∧ (selectFieldState proj s key).value.isNone
        = s.validatedValues.isNone
    ∧ (selectFieldState proj s key).errors
      = (match s.errors with
         | none => []
         | some e => (mapGet (formatErrors e) (PathKey.field key)).getD [])
    ∧ (s.errors = none → (selectFieldState proj s key).errors = [])
    ∧ ((selectFieldState proj s key).touched = true ↔ key ∈ s.touched)
    ∧ (selectFieldState proj s key).hasSubmitted = s.hasSubmitted := by
  obtain ⟨raw, vv, er, tc, isub, hsub⟩ := s
  refine ⟨rfl, rfl, ?_, ?_, ?_, ?_, rfl⟩
  · cases vv <;> rfl
  · cases er <;> rfl
  · intro h
    cases h
    rfl
  · show touchedHas tc key = true ↔ key ∈ tc
    exact touchedHas_iff

/-- Witness for C9 at a concrete valid snapshot: no errors are stored,
so the selected field state's error list is empty. -/
theorem selectFieldState_projection_witness :
    (selectFieldState (fun vs : ValRecord => rawGet vs "a")
        validStart "a").errors = [] :=
  (selectFieldState_projection (fun vs : ValRecord => rawGet vs "a")
      validStart "a").2.2.2.2.1 (by decide)

/-- Claim C10: at the public interface `setRawValue` and `touch`
cannot fail: for every schema, key, value and state they produce a
success, and their error channel (`never`, modelled by `Empty`) admits
no failing result at all. -/
theorem setRawValue_touch_never_fail {A : Type} (sch : FSchema A)
    (k v : String) (s : FormState A) :
    (∃ s1, setRawValueEffect sch k v s = Except.ok s1)
    ∧ (∃ s2, touchEffect k s = Except.ok s2)
    ∧ (∀ x : Except Empty (FormState A), isOkB x = true) := by
  refine ⟨⟨setRawValue sch k v s, rfl⟩, ⟨touch k s, rfl⟩, ?_⟩
  intro x
  cases x with
  | ok a => rfl
  | error e => cases e

end Flowline
